import Mathlib

/-!
Verification of the throw-cruncher survey-ingestion pipeline.

The Rust program parses a survey CSV of produce "rancidness" ratings.  Its
core is a tolerant per-cell parsing pipeline: a strict float parse with a
regex-based recovery (`best_effort_parse_float`), a strict boolean parse
(`parse_bool`), a record builder (`Fruit::from_iter`), a clamping
normalizer (`Fruit::massage`) and a per-item aggregator (`report`).

Modelling conventions:
  - `f64` values are modelled as exact rationals (`ℚ`).  All numeric values
    reachable through the claims are small decimals on which `f64`
    arithmetic is exact, so the idealization is faithful there.  The
    special floating values (infinities, NaN, the textual tokens
    "inf"/"nan" accepted by Rust's float grammar) are outside the model.
  - Rust's `str::parse::<f64>` is modelled by `parse_f64`, implementing the
    documented grammar `Sign? (Count '.' Digit* Exp? | '.' Digit+ Exp? |
    Count Exp?)` exactly, with the parsed value built by `mkRat`.
  - The compiled search pattern `([-]?[0-9]*\.?,?[0-9]+)` is modelled by a
    backtracking matcher (`matchAt` / `findMatch`) with the regex crate's
    leftmost-first semantics: earliest starting position wins, and at a
    fixed position greedy quantifiers prefer to consume.
  - A Rust panic (the `.unwrap()` in `best_effort_parse_float`) is an
    explicit outcome (`ParseOutcome.panic`, `Build.panic`), so that
    absence of panics is a provable statement.
-/

namespace ThrowCruncher

/-- Digits of a decimal numeral, most significant first, as a natural. -/
def digitsToNat (l : List Char) : Nat :=
  l.foldl (fun n c => 10 * n + (c.toNat - 48)) 0

/-- The exponent suffix `Exp?` of Rust's float grammar: either nothing, or
`e`/`E`, an optional sign and a nonempty digit run consuming the rest. -/
def parseExpPart (l : List Char) : Option Int :=
  match l with
  | [] => some 0
  | c :: rest =>
    if c = 'e' ∨ c = 'E' then
      let sgnAndRest : Int × List Char :=
        match rest with
        | [] => (1, [])
        | c2 :: r2 => if c2 = '+' then (1, r2) else if c2 = '-' then (-1, r2) else (1, c2 :: r2)
      let ds := sgnAndRest.2.takeWhile Char.isDigit
      if ds.isEmpty then none
      else if (sgnAndRest.2.dropWhile Char.isDigit).isEmpty then
        some (sgnAndRest.1 * (digitsToNat ds : Int))
      else none
    else none

/-- Builds the rational value of a mantissa `mnum / mden` scaled by `10 ^ e`. -/
def applyExp (sgn : Int) (mnum mden : Nat) (e : Int) : ℚ :=
  if 0 ≤ e then mkRat (sgn * ((mnum * 10 ^ e.toNat : Nat) : Int))  mden
  else mkRat (sgn * (mnum : Int)) (mden * 10 ^ (-e).toNat)

/-- The unsigned part of Rust's float grammar: `Count '.' Digit* Exp? |
'.' Digit+ Exp? | Count Exp?`, with the already-consumed sign passed in. -/
def parseMantissa (l1 : List Char) (sgn : Int) : Option ℚ :=
  let ip := l1.takeWhile Char.isDigit
  let r1 := l1.dropWhile Char.isDigit
  match r1 with
  | '.' :: r2 =>
    let fp := r2.takeWhile Char.isDigit
    let r3 := r2.dropWhile Char.isDigit
    if ip.isEmpty && fp.isEmpty then none
    else
      match parseExpPart r3 with
      | some e => some (applyExp sgn (digitsToNat ip * 10 ^ fp.length + digitsToNat fp) (10 ^ fp.length) e)
      | none => none
  | _ =>
    if ip.isEmpty then none
    else
      match parseExpPart r1 with
      | some e => some (applyExp sgn (digitsToNat ip) 1 e)
      | none => none

/-- Rust's `str::parse::<f64>` on a character list, restricted to the
finite-number part of the grammar: `Sign? (Count '.' Digit* Exp? |
'.' Digit+ Exp? | Count Exp?)`.  Whole-input match, no trimming. -/
def parseNumChars (l : List Char) : Option ℚ :=
  match l with
  | [] => parseMantissa [] 1
  | c :: r =>
    if c = '+' then parseMantissa r 1
    else if c = '-' then parseMantissa r (-1)
    else parseMantissa (c :: r) 1

/-- Rust's `input.parse::<f64>()` as used by `best_effort_parse_float`. -/
def parse_f64 (s : String) : Option ℚ :=
  parseNumChars s.data

/-- Matcher for the final `[0-9]+` of the search pattern: one digit then a
greedy digit run.  Returns the matched characters and the rest. -/
def digitsPlus (l : List Char) : Option (List Char × List Char) :=
  match l with
  | [] => none
  | c :: cs =>
    if c.isDigit then some (c :: cs.takeWhile Char.isDigit, cs.dropWhile Char.isDigit)
    else none

/-- Matcher for `,?[0-9]+`: greedily try to consume a comma, backtracking
to no comma if the digit run then fails. -/
def commaPart (l : List Char) : Option (List Char × List Char) :=
  match l with
  | [] => none
  | c :: cs =>
    if c = ',' then
      match digitsPlus cs with
      | some (m, r) => some (c :: m, r)
      | none => digitsPlus (c :: cs)
    else digitsPlus (c :: cs)

/-- Matcher for `\.?,?[0-9]+`: greedily try to consume a dot, backtracking
to no dot on failure of the remainder. -/
def dotPart (l : List Char) : Option (List Char × List Char) :=
  match l with
  | [] => none
  | c :: cs =>
    if c = '.' then
      match commaPart cs with
      | some (m, r) => some (c :: m, r)
      | none => commaPart (c :: cs)
    else commaPart (c :: cs)

/-- Matcher for `[0-9]*\.?,?[0-9]+`: the star greedily prefers to consume a
digit and continue, backtracking to stopping the star here. -/
def bodyPart : List Char → Option (List Char × List Char)
  | [] => dotPart []
  | c :: cs =>
    if c.isDigit then
      match bodyPart cs with
      | some (m, r) => some (c :: m, r)
      | none => dotPart (c :: cs)
    else dotPart (c :: cs)

/-- Matcher for the full pattern `[-]?[0-9]*\.?,?[0-9]+` anchored at the
head of the list. -/
def matchAt (l : List Char) : Option (List Char × List Char) :=
  match l with
  | [] => none
  | c :: cs =>
    if c = '-' then
      match bodyPart cs with
      | some (m, r) => some (c :: m, r)
      | none => bodyPart (c :: cs)
    else bodyPart (c :: cs)

/-- Leftmost match of the search pattern: the earliest starting position at
which `matchAt` succeeds, as the regex crate's `captures` finds it. -/
def findMatch : List Char → Option (List Char)
  | [] => none
  | c :: cs =>
    match matchAt (c :: cs) with
    | some (m, _) => some m
    | none => findMatch cs

/-- Outcome of `best_effort_parse_float`: the Rust `Result<FloatNote, &str>`
together with an explicit constructor for the `.unwrap()` panic. -/
inductive ParseOutcome where
  | float : ℚ → ParseOutcome
  | floatNote : ℚ → String → ParseOutcome
  | err : String → ParseOutcome
  | panic : ParseOutcome
deriving DecidableEq, Repr

/-- The Scale Value Parser `best_effort_parse_float`: strict parse of the
whole input, else regex recovery of the first embedded match (whose own
parse failure is the `.unwrap()` panic), else failure carrying the input. -/
def best_effort_parse_float (input : String) : ParseOutcome :=
  match parse_f64 input with
  | some q => .float q
  | none =>
    match findMatch input.data with
    | some m =>
      match parseNumChars m with
      | some q => .floatNote q input
      | none => .panic
    | none => .err input

/-- Rust's `u8::to_ascii_lowercase` on one character. -/
def asciiLower (c : Char) : Char :=
  if 'A' ≤ c ∧ c ≤ 'Z' then Char.ofNat (c.toNat + 32) else c

/-- Does the needle occur at the head of the haystack. -/
def beginsWith : List Char → List Char → Bool
  | [], _ => true
  | _ :: _, [] => false
  | n :: ns, h :: hs => n = h && beginsWith ns hs

/-- Rust's `str::contains` with string pattern: substring containment. -/
def containsSub : List Char → List Char → Bool
  | [], needle => needle.isEmpty
  | h :: hs, needle => beginsWith needle (h :: hs) || containsSub hs needle

/-- The fresh-word test `note.to_ascii_lowercase().contains("fresh")`. -/
def containsFresh (s : String) : Bool :=
  containsSub (s.data.map asciiLower) ['f', 'r', 'e', 's', 'h']

/-- One respondent's answer for one produce item (Rust struct `Fruit`). -/
structure Fruit where
  would_throw : Bool
  expected_rancidness : Option ℚ
  desired_rancidness : Option ℚ
  notes : String
deriving DecidableEq, Repr

/-- Result of a fallible build step: Rust's `Result<α, &str>` with an
explicit constructor for a propagated panic. -/
inductive Build (α : Type) where
  | ok : α → Build α
  | err : String → Build α
  | panic : Build α
deriving DecidableEq, Repr

/-- Sequencing of build steps, as Rust's `?` operator. -/
def Build.bind {α β : Type} : Build α → (α → Build β) → Build β
  | .ok a, f => f a
  | .err e, _ => .err e
  | .panic, _ => .panic

/-- The Boolean Parser `parse_bool`: exactly "Yes" or "No", else a
`MalformedBooleanError`-style hard failure. -/
def parse_bool (input : String) : Except String Bool :=
  if input = "Yes" then .ok true
  else if input = "No" then .ok false
  else .error ("malformed bool: " ++ input)

/-- Resolution of one scale cell inside `Fruit::from_iter`: the value and
the optional provenance note, or `none` for a propagated panic.  On total
failure the fresh-word fallback substitutes the value 1. -/
def resolveOutcome : ParseOutcome → Option (Option ℚ × Option String)
  | .float f => some (some f, none)
  | .floatNote f note => some (some f, some note)
  | .err note => some ((if containsFresh note then some 1 else none), some note)
  | .panic => none

/-- The Record Builder `Fruit::from_iter`: consume three cells (would-throw
flag, expected rating, desired rating) from the cursor and build one
record, accumulating notes with the `" | "` separator. -/
def Fruit.from_iter (cells : List String) : Build (Fruit × List String) :=
  match cells with
  | [] => .err "end of row"
  | wtCell :: rest =>
    match parse_bool wtCell with
    | .error e => .err e
    | .ok would_throw =>
      match rest with
      | [] => .err "end of row"
      | expCell :: rest2 =>
        match resolveOutcome (best_effort_parse_float expCell) with
        | none => .panic
        | some (expected_rancidness, note1) =>
          let notes : String := match note1 with | none => "" | some n => n
          let separator : String := if notes = "" then "" else " | "
          match rest2 with
          | [] => .err "end of row"
          | desCell :: rest3 =>
            match resolveOutcome (best_effort_parse_float desCell) with
            | none => .panic
            | some (desired_rancidness, note2) =>
              let notes2 : String :=
                match note2 with | none => notes | some n => notes ++ separator ++ n
              .ok ({ would_throw := would_throw,
                     expected_rancidness := expected_rancidness,
                     desired_rancidness := desired_rancidness,
                     notes := notes2 }, rest3)

/-- One Row: the twenty per-item records of one respondent (Rust struct
`Response`). -/
structure Response where
  artichoke : Fruit
  avocado : Fruit
  banana : Fruit
  brussels_sprout : Fruit
  cantaloupe : Fruit
  cauliflower : Fruit
  chard : Fruit
  crimini_mushroom : Fruit
  golden_beet : Fruit
  jalapeno : Fruit
  kiwi : Fruit
  korean_melon : Fruit
  lime : Fruit
  pear : Fruit
  plucot : Fruit
  red_grapefruit : Fruit
  red_onion : Fruit
  straightneck_squash : Fruit
  strawberry : Fruit
  tomatillo : Fruit
deriving DecidableEq, Repr

/-- The row-level Record Builder `Response::from_iter`: twenty consecutive
`Fruit::from_iter` calls on the shared cursor, any failure propagating. -/
def Response.from_iter (cells : List String) : Build (Response × List String) :=
  (Fruit.from_iter cells).bind fun p1 =>
  (Fruit.from_iter p1.2).bind fun p2 =>
  (Fruit.from_iter p2.2).bind fun p3 =>
  (Fruit.from_iter p3.2).bind fun p4 =>
  (Fruit.from_iter p4.2).bind fun p5 =>
  (Fruit.from_iter p5.2).bind fun p6 =>
  (Fruit.from_iter p6.2).bind fun p7 =>
  (Fruit.from_iter p7.2).bind fun p8 =>
  (Fruit.from_iter p8.2).bind fun p9 =>
  (Fruit.from_iter p9.2).bind fun p10 =>
  (Fruit.from_iter p10.2).bind fun p11 =>
  (Fruit.from_iter p11.2).bind fun p12 =>
  (Fruit.from_iter p12.2).bind fun p13 =>
  (Fruit.from_iter p13.2).bind fun p14 =>
  (Fruit.from_iter p14.2).bind fun p15 =>
  (Fruit.from_iter p15.2).bind fun p16 =>
  (Fruit.from_iter p16.2).bind fun p17 =>
  (Fruit.from_iter p17.2).bind fun p18 =>
  (Fruit.from_iter p18.2).bind fun p19 =>
  (Fruit.from_iter p19.2).bind fun p20 =>
  .ok (⟨p1.1, p2.1, p3.1, p4.1, p5.1, p6.1, p7.1, p8.1, p9.1, p10.1,
        p11.1, p12.1, p13.1, p14.1, p15.1, p16.1, p17.1, p18.1, p19.1, p20.1⟩, p20.2)

/-- The dataset ingest loop of `main`: skip the three metadata cells of
each row, build its `Response`, and collect fail-fast, the first
row-level failure aborting the whole batch. -/
def ingest (rows : List (List String)) : Build (List Response) :=
  match rows with
  | [] => .ok []
  | row :: rest =>
    (Response.from_iter (row.drop 3)).bind fun pr =>
    (ingest rest).bind fun rs => .ok (pr.1 :: rs)

/-- Rust's `f64::clamp(1.0, 5.0)` on the rational model. -/
def clampScale (x : ℚ) : ℚ :=
  if x < 1 then 1 else if 5 < x then 5 else x

/-- The Normalizer `Fruit::massage`: clamp both present numeric fields into
the scale range, pass everything else through. -/
def Fruit.massage (f : Fruit) : Fruit :=
  { would_throw := f.would_throw,
    expected_rancidness := f.expected_rancidness.map clampScale,
    desired_rancidness := f.desired_rancidness.map clampScale,
    notes := f.notes }

/-- Incremental running average of the Aggregator: the Rust
`zip(1..).fold(0.0, |s, (e, i)| (e + s * (i - 1)) / i)`. -/
def avgFold (vs : List ℚ) : ℚ :=
  (vs.zip (List.range' 1 vs.length)).foldl
    (fun s p => (p.1 + s * ((p.2 - 1 : Nat) : ℚ)) / (p.2 : ℚ)) 0

/-- The Aggregator `report`: throw count, not-throw count, and the two
incremental averages over the present values only. -/
def report (fruits : List Fruit) : Nat × Nat × ℚ × ℚ :=
  ((fruits.filter fun f => f.would_throw).length,
   (fruits.filter fun f => !f.would_throw).length,
   avgFold (fruits.filterMap fun f => f.expected_rancidness),
   avgFold (fruits.filterMap fun f => f.desired_rancidness))

/-- Modelled from the spec, section 4.5: the running-average contract.  For
the i-th present value v (1-indexed) and previous running average s, the
new running average is (v + s * (i - 1)) / i, starting from the neutral
value 0.  To be compared with the code-side `avgFold`. -/
def specRunningAverage : ℚ → Nat → List ℚ → ℚ
  | s, _, [] => s
  | s, i, v :: vs => specRunningAverage ((v + s * ((i : ℚ) - 1)) / (i : ℚ)) (i + 1) vs

lemma clampScale_idem (x : ℚ) : clampScale (clampScale x) = clampScale x := by
  unfold clampScale
  split_ifs <;> first | rfl | linarith

lemma clampScale_mem (x : ℚ) : 1 ≤ clampScale x ∧ clampScale x ≤ 5 := by
  unfold clampScale
  split_ifs <;> constructor <;> linarith

/-- C1: evidence that the no-raise claim fails on the code as written.  On
the input "1,5" the strict parse fails, the embedded-number pattern
matches the substring "1,5", that substring fails to parse as a number,
and the `.unwrap()` inside `best_effort_parse_float` therefore panics
instead of producing one of the three documented outcomes. -/
theorem best_effort_panics_on_comma_match :
    parse_f64 "1,5" = none
    ∧ findMatch "1,5".data = some ['1', ',', '5']
    ∧ parseNumChars ['1', ',', '5'] = none
    ∧ best_effort_parse_float "1,5" = ParseOutcome.panic :=
  ⟨by decide, by decide, by decide, by decide⟩

/-- C5: normalization is idempotent, and every numeric value present after
normalization lies in the inclusive range [1, 5]. -/
theorem massage_idempotent_and_bounded (f : Fruit) :
    Fruit.massage (Fruit.massage f) = Fruit.massage f
    ∧ (∀ x : ℚ, (Fruit.massage f).expected_rancidness = some x → 1 ≤ x ∧ x ≤ 5)
    ∧ (∀ x : ℚ, (Fruit.massage f).desired_rancidness = some x → 1 ≤ x ∧ x ≤ 5) := by
  obtain ⟨w, e, d, n⟩ := f
  refine ⟨?_, ?_, ?_⟩
  · simp only [Fruit.massage]
    cases e <;> cases d <;> simp [Option.map, clampScale_idem]
  · intro x hx
    cases e with
    | none => simp [Fruit.massage] at hx
    | some y =>
      simp [Fruit.massage] at hx
      rw [← hx]
      exact clampScale_mem y
  · intro x hx
    cases d with
    | none => simp [Fruit.massage] at hx
    | some y =>
      simp [Fruit.massage] at hx
      rw [← hx]
      exact clampScale_mem y

/-- Witness for C5 at a record whose values 7 and 0 lie outside the scale. -/
theorem massage_idempotent_and_bounded_witness :
    Fruit.massage (Fruit.massage ⟨true, some 7, some 0, "x"⟩)
      = Fruit.massage ⟨true, some 7, some 0, "x"⟩
    ∧ ((1:ℚ) ≤ 5 ∧ (5:ℚ) ≤ 5) ∧ ((1:ℚ) ≤ 1 ∧ (1:ℚ) ≤ 5) :=
  ⟨(massage_idempotent_and_bounded ⟨true, some 7, some 0, "x"⟩).1,
   (massage_idempotent_and_bounded ⟨true, some 7, some 0, "x"⟩).2.1 5 (by decide),
   (massage_idempotent_and_bounded ⟨true, some 7, some 0, "x"⟩).2.2 1 (by decide)⟩

/-- C9: normalization changes nothing except clamping the present numeric
values — `would_throw` and `notes` pass through unchanged, absent numeric
fields stay absent, and present ones become their clamped values. -/
theorem massage_frame (f : Fruit) :
    (Fruit.massage f).would_throw = f.would_throw
    ∧ (Fruit.massage f).notes = f.notes
    ∧ (f.expected_rancidness = none → (Fruit.massage f).expected_rancidness = none)
    ∧ (f.desired_rancidness = none → (Fruit.massage f).desired_rancidness = none)
    ∧ (∀ x, f.expected_rancidness = some x →
        (Fruit.massage f).expected_rancidness = some (clampScale x))
    ∧ (∀ x, f.desired_rancidness = some x →
        (Fruit.massage f).desired_rancidness = some (clampScale x)) := by
  refine ⟨rfl, rfl, ?_, ?_, ?_, ?_⟩
  · intro h; simp [Fruit.massage, h]
  · intro h; simp [Fruit.massage, h]
  · intro x h; simp [Fruit.massage, h]
  · intro x h; simp [Fruit.massage, h]

/-- Witness for C9 at a record with one absent and one present value. -/
theorem massage_frame_witness :
    (Fruit.massage ⟨false, none, some 2, "n"⟩).expected_rancidness = none
    ∧ (Fruit.massage ⟨false, none, some 2, "n"⟩).desired_rancidness = some (clampScale 2) :=
  ⟨(massage_frame ⟨false, none, some 2, "n"⟩).2.2.1 rfl,
   (massage_frame ⟨false, none, some 2, "n"⟩).2.2.2.2.2 2 rfl⟩

lemma length_filter_would_throw (l : List Fruit) :
    (l.filter fun f => f.would_throw).length + (l.filter fun f => !f.would_throw).length
      = l.length := by
  induction l with
  | nil => rfl
  | cons f t ih =>
    cases h : f.would_throw <;> simp [List.filter_cons, h] <;> omega

lemma avgFold_zip_eq (vs : List ℚ) (s : ℚ) (i : Nat) (hi : 1 ≤ i) :
    (vs.zip (List.range' i vs.length)).foldl
      (fun s p => (p.1 + s * ((p.2 - 1 : Nat) : ℚ)) / (p.2 : ℚ)) s
    = specRunningAverage s i vs := by
  induction vs generalizing s i with
  | nil => rfl
  | cons v vs ih =>
    have hcast : ((i - 1 : Nat) : ℚ) = (i : ℚ) - 1 := by
      rw [Nat.cast_sub hi, Nat.cast_one]
    simp only [List.length_cons, List.range'_succ, List.zip_cons_cons, List.foldl_cons,
      specRunningAverage, hcast]
    exact ih _ _ (by omega)

lemma avgFold_eq_spec (vs : List ℚ) : avgFold vs = specRunningAverage 0 1 vs :=
  avgFold_zip_eq vs 0 1 le_rfl

/-- A record set with present expected values 2 and 4 and one absent one. -/
def sampleFruits : List Fruit :=
  [⟨true, some 2, none, ""⟩, ⟨false, some 4, none, ""⟩, ⟨true, none, none, ""⟩]

/-- C2: the Aggregator's two counts always sum to the number of rows, the
averages are the incremental running average (spec formula, starting
from 0) over the present values only, an empty set of present values
yields the average 0, and on `sampleFruits` (present expected values 2
and 4) the expected average is exactly 3. -/
theorem report_counts_and_running_averages :
    (∀ fruits : List Fruit,
      (report fruits).1 + (report fruits).2.1 = fruits.length
      ∧ (report fruits).2.2.1
          = specRunningAverage 0 1 (fruits.filterMap fun f => f.expected_rancidness)
      ∧ (report fruits).2.2.2
          = specRunningAverage 0 1 (fruits.filterMap fun f => f.desired_rancidness)
      ∧ ((fruits.filterMap fun f => f.expected_rancidness) = [] → (report fruits).2.2.1 = 0)
      ∧ ((fruits.filterMap fun f => f.desired_rancidness) = [] → (report fruits).2.2.2 = 0))
    ∧ (report sampleFruits).2.2.1 = 3 := by
  constructor
  · intro fruits
    refine ⟨length_filter_would_throw fruits, avgFold_eq_spec _, avgFold_eq_spec _, ?_, ?_⟩
    · intro h
      simp [report, h, avgFold]
    · intro h
      simp [report, h, avgFold]
  · show avgFold (sampleFruits.filterMap fun f => f.expected_rancidness) = 3
    have hfm : (sampleFruits.filterMap fun f => f.expected_rancidness) = [2, 4] := rfl
    rw [hfm]
    simp [avgFold, List.range']
    norm_num

/-- Witness for C2 at a one-row record set with no present values. -/
theorem report_counts_and_running_averages_witness :
    (report [⟨true, none, none, ""⟩]).2.2.1 = 0
    ∧ (report [⟨true, none, none, ""⟩]).2.2.2 = 0 :=
  ⟨(report_counts_and_running_averages.1 [⟨true, none, none, ""⟩]).2.2.2.1 rfl,
   (report_counts_and_running_averages.1 [⟨true, none, none, ""⟩]).2.2.2.2 rfl⟩

lemma floatNote_note_eq {s : String} {q : ℚ} {n : String}
    (h : best_effort_parse_float s = .floatNote q n) : n = s := by
  cases hp : parse_f64 s with
  | some q2 => simp [best_effort_parse_float, hp] at h
  | none =>
    cases hm : findMatch s.data with
    | none => simp [best_effort_parse_float, hp, hm] at h
    | some m =>
      cases hq : parseNumChars m with
      | none => simp [best_effort_parse_float, hp, hm, hq] at h
      | some q2 =>
        simp only [best_effort_parse_float, hp, hm, hq, ParseOutcome.floatNote.injEq] at h
        exact h.2.symm

lemma err_note_eq {s n : String} (h : best_effort_parse_float s = .err n) : n = s := by
  cases hp : parse_f64 s with
  | some q2 => simp [best_effort_parse_float, hp] at h
  | none =>
    cases hm : findMatch s.data with
    | none =>
      simp only [best_effort_parse_float, hp, hm, ParseOutcome.err.injEq] at h
      exact h.symm
    | some m =>
      cases hq : parseNumChars m with
      | none => simp [best_effort_parse_float, hp, hm, hq] at h
      | some q2 => simp [best_effort_parse_float, hp, hm, hq] at h

/-- The notes string built from the two optional per-field notes, with the
separator inserted exactly as `Fruit::from_iter` does. -/
def joinNotes (n1 n2 : Option String) : String :=
  let notes : String := match n1 with | none => "" | some n => n
  let separator : String := if notes = "" then "" else " | "
  match n2 with | none => notes | some n => notes ++ separator ++ n

lemma from_iter_err {wt : String} {e : String} (rest : List String)
    (hb : parse_bool wt = .error e) :
    Fruit.from_iter (wt :: rest) = .err e := by
  simp only [Fruit.from_iter]
  rw [hb]

lemma from_iter_panic_exp {wt t : String} {b : Bool} (rest : List String)
    (hb : parse_bool wt = .ok b)
    (h1 : resolveOutcome (best_effort_parse_float t) = none) :
    Fruit.from_iter (wt :: t :: rest) = .panic := by
  simp only [Fruit.from_iter]
  rw [hb, h1]

lemma from_iter_panic_des {wt t d : String} {b : Bool} {o1 : Option ℚ × Option String}
    (rest : List String)
    (hb : parse_bool wt = .ok b)
    (h1 : resolveOutcome (best_effort_parse_float t) = some o1)
    (h2 : resolveOutcome (best_effort_parse_float d) = none) :
    Fruit.from_iter (wt :: t :: d :: rest) = .panic := by
  simp only [Fruit.from_iter]
  rw [hb, h1, h2]

lemma from_iter_cons_eq {wt t d : String} {b : Bool} {e1 e2 : Option ℚ}
    {n1 n2 : Option String} (rest : List String)
    (hb : parse_bool wt = .ok b)
    (h1 : resolveOutcome (best_effort_parse_float t) = some (e1, n1))
    (h2 : resolveOutcome (best_effort_parse_float d) = some (e2, n2)) :
    Fruit.from_iter (wt :: t :: d :: rest) = .ok (⟨b, e1, e2, joinNotes n1 n2⟩, rest) := by
  simp only [Fruit.from_iter]
  rw [hb, h1, h2]
  rfl

lemma beginsWith_append (l s : List Char) : beginsWith l (l ++ s) = true := by
  induction l with
  | nil => rfl
  | cons c cs ih => simp [beginsWith, ih]

lemma containsSub_nil_needle (hay : List Char) : containsSub hay [] = true := by
  cases hay <;> simp [containsSub, beginsWith]

lemma containsSub_append (pre post needle : List Char) :
    containsSub (pre ++ needle ++ post) needle = true := by
  induction pre with
  | nil =>
    cases needle with
    | nil => simpa using containsSub_nil_needle post
    | cons n ns =>
      have hb := beginsWith_append (n :: ns) post
      simp only [List.nil_append, List.cons_append, containsSub, Bool.or_eq_true]
      exact Or.inl (by simpa using hb)
  | cons p ps ih =>
    have hstep : (p :: ps) ++ needle ++ post = p :: (ps ++ needle ++ post) := by simp
    rw [hstep]
    simp only [containsSub, Bool.or_eq_true]
    exact Or.inr ih

lemma containsSub_left (a b : String) : containsSub (a ++ b).data a.data = true := by
  show containsSub (a.data ++ b.data) a.data = true
  simpa using containsSub_append [] b.data a.data

lemma containsSub_right (a b : String) : containsSub (a ++ b).data b.data = true := by
  show containsSub (a.data ++ b.data) b.data = true
  simpa using containsSub_append a.data [] b.data

lemma containsSub_self (a : String) : containsSub a.data a.data = true := by
  simpa using containsSub_append [] [] a.data

/-- C3: on total parse failure of a numeric cell, the fresh-word fallback
decides the rating — exactly 1 when the original text contains "fresh"
case-insensitively, absent otherwise — and the original text is recorded
inside the record's notes. -/
theorem fresh_fallback_on_total_failure
    (wt t d : String) (rest rest2 : List String) (rec : Fruit)
    (hok : Fruit.from_iter (wt :: t :: d :: rest) = .ok (rec, rest2)) :
    (best_effort_parse_float t = .err t →
      rec.expected_rancidness = (if containsFresh t then some 1 else none)
      ∧ containsSub rec.notes.data t.data = true)
    ∧ (best_effort_parse_float d = .err d →
      rec.desired_rancidness = (if containsFresh d then some 1 else none)
      ∧ containsSub rec.notes.data d.data = true) := by
  cases hb : parse_bool wt with
  | error e => rw [from_iter_err _ hb] at hok; simp at hok
  | ok b =>
    constructor
    · intro hE
      have h1 : resolveOutcome (best_effort_parse_float t)
          = some (if containsFresh t then some 1 else none, some t) := by rw [hE]; rfl
      cases hd : best_effort_parse_float d with
      | panic =>
        rw [from_iter_panic_des rest hb h1 (by rw [hd]; rfl)] at hok
        simp at hok
      | float f =>
        rw [from_iter_cons_eq rest hb h1 (by rw [hd]; rfl)] at hok
        simp only [Build.ok.injEq, Prod.mk.injEq] at hok
        obtain ⟨hrec, hrest⟩ := hok
        subst hrec
        exact ⟨rfl, containsSub_self t⟩
      | floatNote f n =>
        rw [from_iter_cons_eq rest hb h1 (by rw [hd]; rfl)] at hok
        simp only [Build.ok.injEq, Prod.mk.injEq] at hok
        obtain ⟨hrec, hrest⟩ := hok
        subst hrec
        refine ⟨rfl, ?_⟩
        show containsSub (joinNotes (some t) (some n)).data t.data = true
        simp only [joinNotes, String.append_assoc]
        exact containsSub_left t _
      | err n =>
        rw [from_iter_cons_eq rest hb h1 (by rw [hd]; rfl)] at hok
        simp only [Build.ok.injEq, Prod.mk.injEq] at hok
        obtain ⟨hrec, hrest⟩ := hok
        subst hrec
        refine ⟨rfl, ?_⟩
        show containsSub (joinNotes (some t) (some n)).data t.data = true
        simp only [joinNotes, String.append_assoc]
        exact containsSub_left t _
    · intro hE
      have h2 : resolveOutcome (best_effort_parse_float d)
          = some (if containsFresh d then some 1 else none, some d) := by rw [hE]; rfl
      cases ht : best_effort_parse_float t with
      | panic =>
        rw [from_iter_panic_exp (d :: rest) hb (by rw [ht]; rfl)] at hok
        simp at hok
      | float f =>
        rw [from_iter_cons_eq rest hb (by rw [ht]; rfl) h2] at hok
        simp only [Build.ok.injEq, Prod.mk.injEq] at hok
        obtain ⟨hrec, hrest⟩ := hok
        subst hrec
        refine ⟨rfl, ?_⟩
        show containsSub (joinNotes none (some d)).data d.data = true
        simp only [joinNotes]
        exact containsSub_right "" d
      | floatNote f n =>
        rw [from_iter_cons_eq rest hb (by rw [ht]; rfl) h2] at hok
        simp only [Build.ok.injEq, Prod.mk.injEq] at hok
        obtain ⟨hrec, hrest⟩ := hok
        subst hrec
        refine ⟨rfl, ?_⟩
        show containsSub (joinNotes (some n) (some d)).data d.data = true
        simp only [joinNotes]
        exact containsSub_right _ d
      | err n =>
        rw [from_iter_cons_eq rest hb (by rw [ht]; rfl) h2] at hok
        simp only [Build.ok.injEq, Prod.mk.injEq] at hok
        obtain ⟨hrec, hrest⟩ := hok
        subst hrec
        refine ⟨rfl, ?_⟩
        show containsSub (joinNotes (some n) (some d)).data d.data = true
        simp only [joinNotes]
        exact containsSub_right _ d

/-- Witness for C3: the cells "Fresh!" (fresh-word fallback fires, rating
becomes 1) and "unsure" (no fresh word, rating absent). -/
theorem fresh_fallback_on_total_failure_witness :
    ((⟨true, some 1, none, "Fresh! | unsure"⟩ : Fruit).expected_rancidness
        = (if containsFresh "Fresh!" then some 1 else none)
      ∧ containsSub ("Fresh! | unsure").data "Fresh!".data = true)
    ∧ ((⟨true, some 1, none, "Fresh! | unsure"⟩ : Fruit).desired_rancidness
        = (if containsFresh "unsure" then some 1 else none)
      ∧ containsSub ("Fresh! | unsure").data "unsure".data = true) :=
  ⟨(fresh_fallback_on_total_failure "Yes" "Fresh!" "unsure" [] []
      ⟨true, some 1, none, "Fresh! | unsure"⟩ (by decide)).1 (by decide),
   (fresh_fallback_on_total_failure "Yes" "Fresh!" "unsure" [] []
      ⟨true, some 1, none, "Fresh! | unsure"⟩ (by decide)).2 (by decide)⟩

/-- C10: a recovered embedded number (outcome b) is always recorded as the
rating; the fresh-word substitution of 1 never overrides it, whatever the
cell text contains. -/
theorem recovered_number_beats_fresh_fallback
    (wt t d : String) (rest rest2 : List String) (rec : Fruit) (q : ℚ) (n : String)
    (hok : Fruit.from_iter (wt :: t :: d :: rest) = .ok (rec, rest2)) :
    (best_effort_parse_float t = .floatNote q n → rec.expected_rancidness = some q)
    ∧ (best_effort_parse_float d = .floatNote q n → rec.desired_rancidness = some q) := by
  cases hb : parse_bool wt with
  | error e => rw [from_iter_err _ hb] at hok; simp at hok
  | ok b =>
    constructor
    · intro hE
      cases hd : best_effort_parse_float d with
      | panic =>
        rw [from_iter_panic_des rest hb (by rw [hE]; rfl) (by rw [hd]; rfl)] at hok
        simp at hok
      | float f =>
        rw [from_iter_cons_eq rest hb (by rw [hE]; rfl) (by rw [hd]; rfl)] at hok
        simp only [Build.ok.injEq, Prod.mk.injEq] at hok
        obtain ⟨hrec, hrest⟩ := hok
        subst hrec
        rfl
      | floatNote f n2 =>
        rw [from_iter_cons_eq rest hb (by rw [hE]; rfl) (by rw [hd]; rfl)] at hok
        simp only [Build.ok.injEq, Prod.mk.injEq] at hok
        obtain ⟨hrec, hrest⟩ := hok
        subst hrec
        rfl
      | err n2 =>
        rw [from_iter_cons_eq rest hb (by rw [hE]; rfl) (by rw [hd]; rfl)] at hok
        simp only [Build.ok.injEq, Prod.mk.injEq] at hok
        obtain ⟨hrec, hrest⟩ := hok
        subst hrec
        rfl
    · intro hE
      cases ht : best_effort_parse_float t with
      | panic =>
        rw [from_iter_panic_exp (d :: rest) hb (by rw [ht]; rfl)] at hok
        simp at hok
      | float f =>
        rw [from_iter_cons_eq rest hb (by rw [ht]; rfl) (by rw [hE]; rfl)] at hok
        simp only [Build.ok.injEq, Prod.mk.injEq] at hok
        obtain ⟨hrec, hrest⟩ := hok
        subst hrec
        rfl
      | floatNote f n2 =>
        rw [from_iter_cons_eq rest hb (by rw [ht]; rfl) (by rw [hE]; rfl)] at hok
        simp only [Build.ok.injEq, Prod.mk.injEq] at hok
        obtain ⟨hrec, hrest⟩ := hok
        subst hrec
        rfl
      | err n2 =>
        rw [from_iter_cons_eq rest hb (by rw [ht]; rfl) (by rw [hE]; rfl)] at hok
        simp only [Build.ok.injEq, Prod.mk.injEq] at hok
        obtain ⟨hrec, hrest⟩ := hok
        subst hrec
        rfl

/-- Witness for C10: the cell "fresh 2" contains the word fresh yet the
embedded 2 is recovered and recorded, not the fallback value 1. -/
theorem recovered_number_beats_fresh_fallback_witness :
    containsFresh "fresh 2" = true
    ∧ (⟨false, some 2, some 1, "fresh 2"⟩ : Fruit).expected_rancidness = some (mkRat 2 1) :=
  ⟨by decide,
   (recovered_number_beats_fresh_fallback "No" "fresh 2" "1" [] []
      ⟨false, some 2, some 1, "fresh 2"⟩ (mkRat 2 1) "fresh 2" (by decide)).1 (by decide)⟩

lemma response_from_iter_err {cells : List String} {e : String}
    (h : Fruit.from_iter cells = .err e) :
    Response.from_iter cells = .err e := by
  unfold Response.from_iter
  rw [h]
  rfl

lemma ingest_cons_err {row : List String} {rows : List (List String)} {e : String}
    (h : Response.from_iter (row.drop 3) = .err e) :
    ingest (row :: rows) = .err e := by
  unfold ingest
  rw [h]
  rfl

/-- C8: the Boolean Parser maps exactly "Yes" to true and "No" to false;
every other string is a hard MalformedBooleanError-style failure, which
aborts the record, the row and the whole dataset ingest with no recovery
heuristic. -/
theorem bool_parser_strict_tokens :
    parse_bool "Yes" = Except.ok true
    ∧ parse_bool "No" = Except.ok false
    ∧ (∀ s : String, s ≠ "Yes" → s ≠ "No" →
        parse_bool s = Except.error ("malformed bool: " ++ s))
    ∧ (∀ (s : String) (rest : List String) (e : String),
        parse_bool s = Except.error e → Fruit.from_iter (s :: rest) = .err e)
    ∧ (∀ (cells : List String) (e : String),
        Fruit.from_iter cells = .err e → Response.from_iter cells = .err e)
    ∧ (∀ (row : List String) (rows : List (List String)) (e : String),
        Response.from_iter (row.drop 3) = .err e → ingest (row :: rows) = .err e) := by
  refine ⟨rfl, rfl, ?_, ?_, ?_, ?_⟩
  · intro s h1 h2
    simp [parse_bool, h1, h2]
  · intro s rest e h
    exact from_iter_err rest h
  · intro cells e h
    exact response_from_iter_err h
  · intro row rows e h
    exact ingest_cons_err h

/-- Witness for C8: the malformed token "maybe" aborts the record, the row
and the dataset. -/
theorem bool_parser_strict_tokens_witness :
    parse_bool "maybe" = Except.error ("malformed bool: " ++ "maybe")
    ∧ Fruit.from_iter ["maybe", "1", "2"] = .err ("malformed bool: " ++ "maybe")
    ∧ ingest [["a", "b", "c", "maybe", "1", "2"]] = .err ("malformed bool: " ++ "maybe") :=
  ⟨bool_parser_strict_tokens.2.2.1 "maybe" (by decide) (by decide),
   bool_parser_strict_tokens.2.2.2.1 "maybe" ["1", "2"] ("malformed bool: " ++ "maybe")
     rfl,
   bool_parser_strict_tokens.2.2.2.2.2 ["a", "b", "c", "maybe", "1", "2"] []
     ("malformed bool: " ++ "maybe") (by decide)⟩

/-- Did the cell text parse strictly as a whole (outcome a), so that no
recovery and no note were needed. -/
def cleanParse (s : String) : Bool :=
  match best_effort_parse_float s with
  | .float _ => true
  | _ => false

lemma eq_empty_of_data_nil {a : String} (h : a.data = []) : a = "" := by
  cases a with
  | mk l =>
    have hl : l = [] := h
    subst hl
    rfl

lemma ne_empty_append_right (a : String) {b : String} (h : b ≠ "") : a ++ b ≠ "" := by
  intro hc
  apply h
  have hdata : a.data ++ b.data = [] := congrArg String.data hc
  exact eq_empty_of_data_nil (List.append_eq_nil.mp hdata).2

lemma joinNotes_none_none : joinNotes none none = "" := rfl

lemma joinNotes_some_none (t : String) : joinNotes (some t) none = t := rfl

lemma joinNotes_none_some (d : String) : joinNotes none (some d) = d := rfl

lemma joinNotes_some_some {t : String} (d : String) (ht : t ≠ "") :
    joinNotes (some t) (some d) = t ++ " | " ++ d := by
  simp only [joinNotes]
  rw [if_neg ht]

lemma resolve_note_form (t : String) :
    (cleanParse t = true ∧ ∃ e1, resolveOutcome (best_effort_parse_float t) = some (e1, none))
    ∨ (cleanParse t = false
        ∧ ∃ e1, resolveOutcome (best_effort_parse_float t) = some (e1, some t))
    ∨ resolveOutcome (best_effort_parse_float t) = none := by
  cases h : best_effort_parse_float t with
  | float f =>
    exact Or.inl ⟨by simp [cleanParse, h], some f, rfl⟩
  | floatNote f n =>
    have hn := floatNote_note_eq h
    subst hn
    exact Or.inr (Or.inl ⟨by simp [cleanParse, h], some f, rfl⟩)
  | err n =>
    have hn := err_note_eq h
    subst hn
    exact Or.inr (Or.inl ⟨by simp [cleanParse, h],
      (if containsFresh n then some 1 else none), rfl⟩)
  | panic => exact Or.inr (Or.inr rfl)

/-- C4: counterexample to the claimed invariant.  With the empty expected
cell "" the record builds successfully with empty notes, although the
expected field did not parse strictly: its outcome was total failure (c),
a non-strict outcome, whose note is the empty original text. -/
theorem notes_empty_despite_nonstrict_counterexample :
    best_effort_parse_float "" = ParseOutcome.err ""
    ∧ cleanParse "" = false
    ∧ Fruit.from_iter ["Yes", "", "3"] = .ok (⟨true, none, some 3, ""⟩, []) :=
  ⟨by decide, by decide, by decide⟩

/-- C4 (amended): for every successfully built record whose two numeric
cells are non-empty texts, notes is non-empty iff at least one of the two
cells required non-strict parsing; when both did, the two original texts
are joined by " | "; when both parsed cleanly notes is empty.  (The
restriction to non-empty cell texts is forced by the counterexample: an
empty cell contributes an empty note.) -/
theorem notes_nonempty_iff_nonstrict
    (wt t d : String) (rest rest2 : List String) (rec : Fruit)
    (ht : t ≠ "") (hd : d ≠ "")
    (hok : Fruit.from_iter (wt :: t :: d :: rest) = .ok (rec, rest2)) :
    ((rec.notes = "") ↔ (cleanParse t = true ∧ cleanParse d = true))
    ∧ (cleanParse t = false → cleanParse d = false → rec.notes = t ++ " | " ++ d) := by
  cases hb : parse_bool wt with
  | error e => rw [from_iter_err _ hb] at hok; simp at hok
  | ok b =>
    rcases resolve_note_form t with ⟨hct, e1, h1⟩ | ⟨hct, e1, h1⟩ | h1
    · rcases resolve_note_form d with ⟨hcd, e2, h2⟩ | ⟨hcd, e2, h2⟩ | h2
      · rw [from_iter_cons_eq rest hb h1 h2] at hok
        simp only [Build.ok.injEq, Prod.mk.injEq] at hok
        obtain ⟨hrec, hrest⟩ := hok
        subst hrec
        constructor
        · simp [joinNotes_none_none, hct, hcd]
        · intro hcf
          rw [hct] at hcf
          cases hcf
      · rw [from_iter_cons_eq rest hb h1 h2] at hok
        simp only [Build.ok.injEq, Prod.mk.injEq] at hok
        obtain ⟨hrec, hrest⟩ := hok
        subst hrec
        constructor
        · show (joinNotes none (some d) = "") ↔ _
          rw [joinNotes_none_some, hct, hcd]
          simp [hd]
        · intro hcf
          rw [hct] at hcf
          cases hcf
      · rw [from_iter_panic_des rest hb h1 h2] at hok
        simp at hok
    · rcases resolve_note_form d with ⟨hcd, e2, h2⟩ | ⟨hcd, e2, h2⟩ | h2
      · rw [from_iter_cons_eq rest hb h1 h2] at hok
        simp only [Build.ok.injEq, Prod.mk.injEq] at hok
        obtain ⟨hrec, hrest⟩ := hok
        subst hrec
        constructor
        · show (joinNotes (some t) none = "") ↔ _
          rw [joinNotes_some_none, hct, hcd]
          simp [ht]
        · intro hcf1 hcf2
          rw [hcd] at hcf2
          cases hcf2
      · rw [from_iter_cons_eq rest hb h1 h2] at hok
        simp only [Build.ok.injEq, Prod.mk.injEq] at hok
        obtain ⟨hrec, hrest⟩ := hok
        subst hrec
        have hjoin : joinNotes (some t) (some d) = t ++ " | " ++ d := joinNotes_some_some d ht
        constructor
        · show (joinNotes (some t) (some d) = "") ↔ _
          rw [hjoin, hct, hcd]
          simp [ne_empty_append_right (t ++ " | ") hd]
        · intro hcf1 hcf2
          exact hjoin
      · rw [from_iter_panic_des rest hb h1 h2] at hok
        simp at hok
    · rw [from_iter_panic_exp (d :: rest) hb h1] at hok
      simp at hok

/-- Witness for the amended C4: a recovered expected cell and a clean
desired cell give exactly the first cell's text as notes. -/
theorem notes_nonempty_iff_nonstrict_witness :
    (((⟨true, some 2, some 3, "ok 2"⟩ : Fruit).notes = "")
      ↔ (cleanParse "ok 2" = true ∧ cleanParse "3" = true))
    ∧ (cleanParse "ok 2" = false → cleanParse "3" = false →
        (⟨true, some 2, some 3, "ok 2"⟩ : Fruit).notes = "ok 2" ++ " | " ++ "3") :=
  notes_nonempty_iff_nonstrict "Yes" "ok 2" "3" [] []
    ⟨true, some 2, some 3, "ok 2"⟩ (by decide) (by decide) (by decide)

/-- C6: counterexample to the trimming part of the claim.  The text " 3.5"
trims to "3.5", which strictly parses as 3.5, yet the parser returns the
recovered outcome (b) with the note " 3.5", because the code parses the
untrimmed cell text. -/
theorem untrimmed_strict_parse_counterexample :
    parse_f64 "3.5" = some (mkRat 35 10)
    ∧ best_effort_parse_float " 3.5" = ParseOutcome.floatNote (mkRat 35 10) " 3.5" :=
  ⟨by decide, by decide⟩

/-- C6 (amended): every cell text that strictly parses in its entirety
without any trimming yields outcome (a), exactly that number with no
note; in particular "3.5" yields exactly 3.5 and no note. -/
theorem strict_parse_gives_clean_float :
    (∀ (s : String) (q : ℚ), parse_f64 s = some q → best_effort_parse_float s = .float q)
    ∧ best_effort_parse_float "3.5" = .float (mkRat 35 10) := by
  constructor
  · intro s q h
    unfold best_effort_parse_float
    rw [h]
  · decide

/-- Witness for the amended C6 at the strictly parsing text "7". -/
theorem strict_parse_gives_clean_float_witness :
    best_effort_parse_float "7" = ParseOutcome.float (mkRat 7 1) :=
  strict_parse_gives_clean_float.1 "7" (mkRat 7 1) (by decide)

lemma isDigit_not_sign {c : Char} (h : c.isDigit = true) : ¬ c = '+' ∧ ¬ c = '-' := by
  constructor <;> intro hx <;> subst hx <;> exact absurd h (by decide)

lemma digitsPlus_some {l m r : List Char} (h : digitsPlus l = some (m, r)) :
    m ≠ [] ∧ ∀ c ∈ m, c.isDigit = true := by
  cases l with
  | nil => simp [digitsPlus] at h
  | cons c cs =>
    simp only [digitsPlus] at h
    by_cases hc : c.isDigit = true
    · rw [if_pos hc] at h
      simp only [Option.some.injEq, Prod.mk.injEq] at h
      obtain ⟨hm, hr⟩ := h
      subst hm
      refine ⟨by simp, ?_⟩
      intro x hx
      rcases List.mem_cons.mp hx with hx | hx
      · subst hx; exact hc
      · exact List.mem_takeWhile_imp hx
    · rw [if_neg hc] at h
      cases h

lemma commaPart_nocomma {l m r : List Char} (h : commaPart l = some (m, r))
    (hm : ',' ∉ m) : m ≠ [] ∧ ∀ c ∈ m, c.isDigit = true := by
  cases l with
  | nil => simp [commaPart] at h
  | cons c cs =>
    simp only [commaPart] at h
    by_cases hc : c = ','
    · rw [if_pos hc] at h
      cases hd : digitsPlus cs with
      | some p =>
        obtain ⟨m2, r2⟩ := p
        rw [hd] at h
        simp only [Option.some.injEq, Prod.mk.injEq] at h
        obtain ⟨hm2, hr2⟩ := h
        subst hm2
        subst hc
        exact absurd (List.mem_cons_self _ _) hm
      | none =>
        rw [hd] at h
        subst hc
        simp only [digitsPlus] at h
        rw [if_neg (by decide : ¬ (',' : Char).isDigit = true)] at h
        cases h
    · rw [if_neg hc] at h
      exact digitsPlus_some h

lemma dotPart_nocomma {l m r : List Char} (h : dotPart l = some (m, r)) (hm : ',' ∉ m) :
    (m ≠ [] ∧ ∀ c ∈ m, c.isDigit = true)
    ∨ (∃ m2, m = '.' :: m2 ∧ m2 ≠ [] ∧ ∀ c ∈ m2, c.isDigit = true) := by
  cases l with
  | nil => simp [dotPart] at h
  | cons c cs =>
    simp only [dotPart] at h
    by_cases hc : c = '.'
    · rw [if_pos hc] at h
      cases hd : commaPart cs with
      | some p =>
        obtain ⟨m2, r2⟩ := p
        rw [hd] at h
        simp only [Option.some.injEq, Prod.mk.injEq] at h
        obtain ⟨hm2, hr2⟩ := h
        subst hm2
        subst hc
        have hm2no : ',' ∉ m2 := fun hx => hm (List.mem_cons_of_mem _ hx)
        exact Or.inr ⟨m2, rfl, (commaPart_nocomma hd hm2no).1, (commaPart_nocomma hd hm2no).2⟩
      | none =>
        rw [hd] at h
        subst hc
        simp only [commaPart] at h
        rw [if_neg (by decide : ¬ ('.' : Char) = ',')] at h
        simp only [digitsPlus] at h
        rw [if_neg (by decide : ¬ ('.' : Char).isDigit = true)] at h
        cases h
    · rw [if_neg hc] at h
      exact Or.inl (commaPart_nocomma h hm)

lemma bodyPart_nocomma : ∀ {l m r : List Char}, bodyPart l = some (m, r) → ',' ∉ m →
    ∃ ds t, m = ds ++ t ∧ (∀ c ∈ ds, c.isDigit = true)
      ∧ ((t ≠ [] ∧ ∀ c ∈ t, c.isDigit = true)
        ∨ (∃ t2, t = '.' :: t2 ∧ t2 ≠ [] ∧ ∀ c ∈ t2, c.isDigit = true)) := by
  intro l
  induction l with
  | nil => intro m r h hm; simp [bodyPart, dotPart] at h
  | cons c cs ih =>
    intro m r h hm
    simp only [bodyPart] at h
    by_cases hc : c.isDigit = true
    · rw [if_pos hc] at h
      cases hb : bodyPart cs with
      | some p =>
        obtain ⟨m2, r2⟩ := p
        rw [hb] at h
        simp only [Option.some.injEq, Prod.mk.injEq] at h
        obtain ⟨hm2, hr2⟩ := h
        subst hm2
        have hm2no : ',' ∉ m2 := fun hx => hm (List.mem_cons_of_mem _ hx)
        obtain ⟨ds, t, rfl, hds, hshape⟩ := ih hb hm2no
        refine ⟨c :: ds, t, rfl, ?_, hshape⟩
        intro x hx
        rcases List.mem_cons.mp hx with hx | hx
        · subst hx; exact hc
        · exact hds x hx
      | none =>
        rw [hb] at h
        exact ⟨[], m, rfl, by simp, dotPart_nocomma h hm⟩
    · rw [if_neg hc] at h
      exact ⟨[], m, rfl, by simp, dotPart_nocomma h hm⟩

lemma takeWhile_all_digits {l : List Char} (h : ∀ c ∈ l, c.isDigit = true) :
    l.takeWhile Char.isDigit = l :=
  List.takeWhile_eq_self_iff.mpr h

lemma dropWhile_all_digits {l : List Char} (h : ∀ c ∈ l, c.isDigit = true) :
    l.dropWhile Char.isDigit = [] :=
  List.dropWhile_eq_nil_iff.mpr h

lemma spanDigits_boundary {ds : List Char} {a : Char} (rest : List Char)
    (hds : ∀ c ∈ ds, c.isDigit = true) (ha : a.isDigit = false) :
    (ds ++ a :: rest).takeWhile Char.isDigit = ds
    ∧ (ds ++ a :: rest).dropWhile Char.isDigit = a :: rest := by
  induction ds with
  | nil => simp [List.takeWhile_cons, List.dropWhile_cons, ha]
  | cons x xs ih =>
    have hx : x.isDigit = true := hds x (List.mem_cons_self x xs)
    have ihh := ih (fun c hc => hds c (List.mem_cons_of_mem _ hc))
    simp [List.takeWhile_cons, List.dropWhile_cons, hx, ihh]

lemma parseMantissa_all_digits {m : List Char} (sgn : Int) (hne : m ≠ [])
    (hall : ∀ c ∈ m, c.isDigit = true) : (parseMantissa m sgn).isSome = true := by
  simp only [parseMantissa]
  rw [takeWhile_all_digits hall, dropWhile_all_digits hall]
  obtain ⟨c, cs, rfl⟩ := List.exists_cons_of_ne_nil hne
  simp [parseExpPart]

lemma parseMantissa_dot_shape (sgn : Int) (ds t2 : List Char)
    (hds : ∀ c ∈ ds, c.isDigit = true) (ht2ne : t2 ≠ [])
    (ht2 : ∀ c ∈ t2, c.isDigit = true) :
    (parseMantissa (ds ++ '.' :: t2) sgn).isSome = true := by
  have hb := spanDigits_boundary t2 hds (by decide : ('.' : Char).isDigit = false)
  have htw := takeWhile_all_digits ht2
  have hdw := dropWhile_all_digits ht2
  simp only [parseMantissa]
  rw [hb.1, hb.2]
  obtain ⟨c, cs, rfl⟩ := List.exists_cons_of_ne_nil ht2ne
  simp [htw, hdw, parseExpPart]

lemma parseNumChars_cons_head {c : Char} {cs : List Char}
    (hcp : ¬ c = '+') (hcm : ¬ c = '-') :
    parseNumChars (c :: cs) = parseMantissa (c :: cs) 1 := by
  simp only [parseNumChars]
  rw [if_neg hcp, if_neg hcm]

lemma parseNumChars_neg (cs : List Char) :
    parseNumChars ('-' :: cs) = parseMantissa cs (-1) := by
  simp only [parseNumChars]
  rw [if_neg (by decide : ¬ ('-' : Char) = '+')]
  simp

lemma shape_parseMantissa {m : List Char}
    (hsh : ∃ ds t, m = ds ++ t ∧ (∀ c ∈ ds, c.isDigit = true)
      ∧ ((t ≠ [] ∧ ∀ c ∈ t, c.isDigit = true)
        ∨ (∃ t2, t = '.' :: t2 ∧ t2 ≠ [] ∧ ∀ c ∈ t2, c.isDigit = true)))
    (sgn : Int) : (parseMantissa m sgn).isSome = true := by
  obtain ⟨ds, t, rfl, hds, hcase | hcase⟩ := hsh
  · obtain ⟨htne, htall⟩ := hcase
    apply parseMantissa_all_digits sgn
    · intro hx
      exact htne (List.append_eq_nil.mp hx).2
    · intro c hc
      rcases List.mem_append.mp hc with hc | hc
      · exact hds c hc
      · exact htall c hc
  · obtain ⟨t2, rfl, ht2ne, ht2all⟩ := hcase
    exact parseMantissa_dot_shape sgn ds t2 hds ht2ne ht2all

lemma shape_head_not_sign {m : List Char}
    (hsh : ∃ ds t, m = ds ++ t ∧ (∀ c ∈ ds, c.isDigit = true)
      ∧ ((t ≠ [] ∧ ∀ c ∈ t, c.isDigit = true)
        ∨ (∃ t2, t = '.' :: t2 ∧ t2 ≠ [] ∧ ∀ c ∈ t2, c.isDigit = true))) :
    ∃ c cs, m = c :: cs ∧ ¬ c = '+' ∧ ¬ c = '-' := by
  obtain ⟨ds, t, rfl, hds, hcase⟩ := hsh
  cases ds with
  | cons x xs =>
    have hx := hds x (List.mem_cons_self x xs)
    exact ⟨x, xs ++ t, rfl, (isDigit_not_sign hx).1, (isDigit_not_sign hx).2⟩
  | nil =>
    rcases hcase with ⟨htne, htall⟩ | ⟨t2, rfl, ht2ne, ht2all⟩
    · obtain ⟨c, cs, rfl⟩ := List.exists_cons_of_ne_nil htne
      have hc := htall c (List.mem_cons_self c cs)
      exact ⟨c, cs, rfl, (isDigit_not_sign hc).1, (isDigit_not_sign hc).2⟩
    · exact ⟨'.', t2, rfl, by decide, by decide⟩

lemma bodyPart_stuck_head {c : Char} (cs : List Char) (h1 : c.isDigit = false)
    (h2 : ¬ c = '.') (h3 : ¬ c = ',') : bodyPart (c :: cs) = none := by
  have hd : digitsPlus (c :: cs) = none := by
    simp only [digitsPlus]
    rw [if_neg (by simp [h1])]
  have hcp : commaPart (c :: cs) = none := by
    simp only [commaPart]
    rw [if_neg h3]
    exact hd
  have hdp : dotPart (c :: cs) = none := by
    simp only [dotPart]
    rw [if_neg h2]
    exact hcp
  simp only [bodyPart]
  rw [if_neg (by simp [h1])]
  cases hb : bodyPart cs with
  | some p => exact hdp
  | none => exact hdp

lemma matchAt_nocomma_parses {l m r : List Char} (h : matchAt l = some (m, r))
    (hm : ',' ∉ m) : (parseNumChars m).isSome = true := by
  cases l with
  | nil => simp [matchAt] at h
  | cons c cs =>
    simp only [matchAt] at h
    by_cases hc : c = '-'
    · rw [if_pos hc] at h
      cases hb : bodyPart cs with
      | some p =>
        obtain ⟨m2, r2⟩ := p
        rw [hb] at h
        simp only [Option.some.injEq, Prod.mk.injEq] at h
        obtain ⟨hm2, hr2⟩ := h
        subst hm2
        subst hc
        have hm2no : ',' ∉ m2 := fun hx => hm (List.mem_cons_of_mem _ hx)
        rw [parseNumChars_neg]
        exact shape_parseMantissa (bodyPart_nocomma hb hm2no) (-1)
      | none =>
        rw [hb] at h
        subst hc
        rw [bodyPart_stuck_head cs (by decide) (by decide) (by decide)] at h
        cases h
    · rw [if_neg hc] at h
      have hsh := bodyPart_nocomma h hm
      obtain ⟨c2, cs2, hme, hcp, hcm⟩ := shape_head_not_sign hsh
      rw [hme, parseNumChars_cons_head hcp hcm, ← hme]
      exact shape_parseMantissa hsh 1

lemma findMatch_exists_matchAt : ∀ {l m : List Char}, findMatch l = some m →
    ∃ l2 r, matchAt l2 = some (m, r) := by
  intro l
  induction l with
  | nil => intro m h; simp [findMatch] at h
  | cons c cs ih =>
    intro m h
    simp only [findMatch] at h
    cases ha : matchAt (c :: cs) with
    | some p =>
      obtain ⟨m2, r2⟩ := p
      rw [ha] at h
      simp only [Option.some.injEq] at h
      subst h
      exact ⟨c :: cs, r2, ha⟩
    | none =>
      rw [ha] at h
      exact ih h

/-- C7: counterexample to the claim as stated — the text "2,5 rancid"
fails strict parsing and the search pattern finds the embedded match
"2,5", yet the parser panics on that substring instead of returning
outcome (b) with its value. -/
theorem embedded_comma_match_counterexample :
    parse_f64 "2,5 rancid" = none
    ∧ findMatch "2,5 rancid".data = some ['2', ',', '5']
    ∧ best_effort_parse_float "2,5 rancid" = ParseOutcome.panic :=
  ⟨by decide, by decide, by decide⟩

/-- C7 (amended): for every cell text that fails strict parsing and whose
first embedded-number match contains no comma, parsing the matched
substring always succeeds and the parser returns outcome (b): the value
of that first match together with a note equal to the full original cell
text.  (The restriction to comma-free matches is forced by the
counterexample: a match containing a comma makes the code panic.) -/
theorem embedded_match_recovers_value (s : String) (m : List Char)
    (hstrict : parse_f64 s = none) (hfind : findMatch s.data = some m)
    (hm : ',' ∉ m) :
    (parseNumChars m).isSome = true
    ∧ best_effort_parse_float s = .floatNote ((parseNumChars m).getD 0) s := by
  obtain ⟨l2, r, hmatch⟩ := findMatch_exists_matchAt hfind
  have hsome := matchAt_nocomma_parses hmatch hm
  refine ⟨hsome, ?_⟩
  obtain ⟨q, hq⟩ := Option.isSome_iff_exists.mp hsome
  simp [best_effort_parse_float, hstrict, hfind, hq]

/-- Witness for the amended C7 at the text "about 2 maybe", whose first
match is the comma-free "2". -/
theorem embedded_match_recovers_value_witness :
    (parseNumChars ['2']).isSome = true
    ∧ best_effort_parse_float "about 2 maybe"
        = ParseOutcome.floatNote ((parseNumChars ['2']).getD 0) "about 2 maybe" :=
  embedded_match_recovers_value "about 2 maybe" ['2'] (by decide) (by decide) (by decide)

end ThrowCruncher
